/-
Verification of the load-tracking core of OperationSSC
(`old_code/current_load.py`) against its natural-language specification.

The shallow embedding below translates the module's data and control flow
into Lean:

* A line of a `.svrdb` state-vector file is modelled as an `SVRecord`
  holding the fields the code extracts from it: the 21-character timestamp
  prefix (`stateTime`, line 167 of the source), the integer VCDU counter
  (`stateVCDU`, line 172) and the opaque remainder of the line.
* The `CurrentLoad` object's mutable attributes become the `LoadState`
  structure; methods become functions `LoadState → LoadState × _` so a
  Python `raise` is a returned `PyErr` with the state as it stood at the
  raise point.
* Filesystem effects (the `find` subprocess of `getRecentLoads`, and the
  reads performed by `startTime`, `firstTimeVCDU` and `slurpState`) are
  an `Env` of response functions; the pure pruning/ordering core of
  `getRecentLoads` is modelled separately as `getRecentLoadsPure` over the
  raw `find` output.
* The three `while` loops of the search routines are translated with an
  explicit fuel argument that bounds the number of iterations exactly as
  the loop counter does, so every definition is executable by `decide`.
-/
import Mathlib

set_option maxRecDepth 4000

/-- Maximum VCDU value + 1 (`vcduWrap = 1 << 24`, source line 12). -/
def vcduWrap : Int := 16777216

/-- `deltaVCDU(a, b)` (source lines 15-24): minimum difference between two
vcdu values, allowing for wrap around.  The source's local `d` is `b - a`,
written out here. -/
def deltaVCDU (a b : Int) : Int :=
  if b - a < 0 then
    if |b - a| > |b - a + vcduWrap| then b - a + vcduWrap else b - a
  else
    if b - a > |b - a - vcduWrap| then b - a - vcduWrap else b - a

/-- Python's string comparison is lexicographic on code points.  Lean's
`String.le` has the same semantics but does not evaluate inside the
kernel, so the comparison is modelled structurally on the character
lists: `lexLe a b` is Python's `a <= b` on strings. -/
def lexLe : List Char → List Char → Bool
  | [], _ => true
  | _ :: _, [] => false
  | a :: as, b :: bs => if a < b then true else if b < a then false else lexLe as bs

/-- `lexLt a b` is Python's `a < b` on strings (code-point lexicographic). -/
def lexLt : List Char → List Char → Bool
  | [], [] => false
  | [], _ :: _ => true
  | _ :: _, [] => false
  | a :: as, b :: bs => if a < b then true else if b < a then false else lexLt as bs

/-- Python `a <= b` on strings. -/
def pyStrLe (a b : String) : Bool := lexLe a.data b.data

/-- Python `a < b` on strings. -/
def pyStrLt (a b : String) : Bool := lexLt a.data b.data

/-- One parsed line of a `.svrdb` file: the code reads `line[:21]` as the
timestamp and `int(line.split()[1])` as the VCDU; the rest is opaque. -/
structure SVRecord where
  time : String
  vcdu : Int
  payload : String
deriving DecidableEq, Inhabited

/-- The errors the module can raise: `CurrentLoadException(msg)` and the
`TypeError` of unpacking `None` in `checkForNewLoads` (source line 134). -/
inductive PyErr where
  | currentLoadExc (msg : String)
  | typeError
deriving DecidableEq

/-- `CurrentLoadException("No new loads found")` (source line 190). -/
def noNewLoads : PyErr := PyErr.currentLoadExc "No new loads found"

/-- The mutable attributes of a `CurrentLoad` object.  `nextStart`,
`nextFirstTime` and `nextFirstVCDU` keep their last assigned value even
when `nextLoads` is `None` (Python attributes are never cleared). -/
structure LoadState where
  svrdb : List SVRecord
  currentStateIndex : Nat
  currentLoads : String
  nextLoads : Option String
  nextStart : String
  nextFirstTime : String
  nextFirstVCDU : Int
deriving DecidableEq

/-- The filesystem, as response functions: `recentLoads ref` is the result
of `getRecentLoads(ref)` (the `find` run plus filtering, pruning and
sorting), `startTime d` / `firstTimeVCDU d` the values those methods
return for directory `d` (`none` = no line matched), and `svrdbOf d` the
parsed lines of `d`'s `.svrdb` file read by `slurpState`. -/
structure Env where
  recentLoads : String → List String
  startTime : String → Option String
  firstTimeVCDU : String → Option (String × Int)
  svrdbOf : String → List SVRecord

/-- Index of the first new state vector entry in `.svrdb` (source line 55;
entries below it are copied from the preceding load's `.svrdb`). -/
def startIndex : Nat := 40

/-- `stateTime(k)` (source lines 164-167): time tag of the record at `k`. -/
def stateTime (svrdb : List SVRecord) (k : Nat) : String :=
  (svrdb.getD k default).time

/-- `stateVCDU(k)` (source lines 169-172): VCDU of the record at `k`. -/
def stateVCDU (svrdb : List SVRecord) (k : Nat) : Int :=
  (svrdb.getD k default).vcdu

/-- The forward scan `while i < n: if not p(i): break; i += 1` of
`getStateAtTime` / `getStateAtVCDU` (source lines 198-201 and 220-225),
with fuel bounding the remaining iterations.  Returns the first `i' ≥ i`
with `i' = n` or `p i' = false`. -/
def fwdAux (p : Nat → Bool) (n : Nat) : Nat → Nat → Nat
  | 0, i => i
  | fuel + 1, i => if i < n then (if p i then fwdAux p n fuel (i + 1) else i) else i

/-- Entry point of the forward scan: fuel `n - i` covers every iteration. -/
def fwdScan (p : Nat → Bool) (n i : Nat) : Nat :=
  fwdAux p n (n - i) i

/-- The backward scan `while i > lo: if p(i): break; i -= 1` of
`getStateAtTime` / `getStateAtVCDU` (source lines 204-208 and 228-234).
Returns the first `i' ≤ i` (descending) with `i' ≤ lo` or `p i' = true`.
Note it never tests `p` at `lo`, and if called with `i < lo` (which the
source does when `currentStateIndex == startIndex`) it returns `i` at
once, below `lo`. -/
def bwdAux (p : Nat → Bool) (lo : Nat) : Nat → Nat → Nat
  | 0, i => i
  | fuel + 1, i => if lo < i then (if p i then i else bwdAux p lo fuel (i - 1)) else i

/-- Entry point of the backward scan: fuel `i` covers every iteration. -/
def bwdScan (p : Nat → Bool) (lo i : Nat) : Nat :=
  bwdAux p lo i i

/-- The common shape of the two linear searches (source lines 196-209 and
216-235): `p` is `atTime >= stateTime(i)` resp. `deltaVCDU(stateVCDU(i),
atVCDU) >= 0`; `cur` is `currentStateIndex`.  If `p cur`, scan forward
from `cur + 1` and step back one; otherwise scan backward from `cur - 1`
(in Python, `cur - 1` with `cur = startIndex` starts the backward scan
below `startIndex`; `cur ≥ startIndex` always holds on entry in this
development, so Nat subtraction agrees with Python here). -/
def linSearch (p : Nat → Bool) (lo n cur : Nat) : Nat :=
  if p cur then fwdScan p n (cur + 1) - 1 else bwdScan p lo (cur - 1)

/-- The binary-search loop of `binaryGetStateAtTime` /
`binaryGetStateAtVCDU` (source lines 243-251 and 259-267):
`while khi > klo + 1: k = (klo + khi) / 2; klo = k if p k else khi = k`,
with fuel bounding the iterations (each step shrinks `khi - klo`).
The module is Python 2 (`output.split('\x5cn')` on the raw subprocess
bytes), so `/` on the midpoint is integer floor division, `Nat` division
here. -/
def binAux (p : Nat → Bool) : Nat → Nat → Nat → Nat
  | 0, klo, _ => klo
  | fuel + 1, klo, khi =>
    if klo + 1 < khi then
      if p ((klo + khi) / 2) then binAux p fuel ((klo + khi) / 2) khi
      else binAux p fuel klo ((klo + khi) / 2)
    else klo

/-- Entry point of the binary search: fuel `khi - klo` suffices. -/
def binSearch (p : Nat → Bool) (klo khi : Nat) : Nat :=
  binAux p (khi - klo) klo khi

/-- The ordering predicate of the searches by time: `atTime >= stateTime(k)`. -/
def timePred (svrdb : List SVRecord) (atTime : String) (k : Nat) : Bool :=
  pyStrLe (stateTime svrdb k) atTime

/-- The ordering predicate of the searches by VCDU:
`deltaVCDU(stateVCDU(k), atVCDU) >= 0`. -/
def vcduPred (svrdb : List SVRecord) (atVCDU : Int) (k : Nat) : Bool :=
  decide (0 ≤ deltaVCDU (stateVCDU svrdb k) atVCDU)

/-- The index `getStateAtTime` resolves (source lines 196-209), as a pure
function of the records, the cursor and the query. -/
def getStateAtTimeIndex (svrdb : List SVRecord) (cur : Nat) (atTime : String) : Nat :=
  linSearch (timePred svrdb atTime) startIndex svrdb.length cur

/-- The index `getStateAtVCDU` resolves (source lines 216-235). -/
def getStateAtVCDUIndex (svrdb : List SVRecord) (cur : Nat) (atVCDU : Int) : Nat :=
  linSearch (vcduPred svrdb atVCDU) startIndex svrdb.length cur

/-- The index `binaryGetStateAtTime` resolves (source lines 243-251). -/
def binaryGetStateAtTimeIndex (svrdb : List SVRecord) (atTime : String) : Nat :=
  binSearch (timePred svrdb atTime) startIndex svrdb.length

/-- The index `binaryGetStateAtVCDU` resolves (source lines 259-267). -/
def binaryGetStateAtVCDUIndex (svrdb : List SVRecord) (atVCDU : Int) : Nat :=
  binSearch (vcduPred svrdb atVCDU) startIndex svrdb.length

/-- Truthiness of an optional Python string (`None` and `""` are falsy). -/
def pyTruthy (o : Option String) : Bool :=
  match o with
  | none => false
  | some t => decide (t ≠ "")

/-- `slurpState(dir)` (source lines 109-117): read the state vectors of
the given loads, reset the cursor to `startIndex`, make `dir` current and
clear `nextLoads` (the other `next*` attributes are left as they were). -/
def slurpState (env : Env) (s : LoadState) (dir : String) : LoadState :=
  { s with
    svrdb := env.svrdbOf dir
    currentStateIndex := startIndex
    currentLoads := dir
    nextLoads := none }

/-- The reference `checkForNewLoads` scans from (source lines 123-126):
`nextLoads` when one is pending, else `currentLoads`. -/
def scanRef (s : LoadState) : String :=
  match s.nextLoads with
  | some nl => nl
  | none => s.currentLoads

/-- `checkForNewLoads()` (source lines 119-140).  Scans for directories
newer than `nextLoads` (else `currentLoads`); if one exists, reads the
candidate's first-command time and first `.svrdb` record and installs the
pending transition when `nextStart and firstVCDU` is truthy.  A
`firstTimeVCDU` result of `None` makes the tuple unpacking on source line
134 raise a `TypeError`, which propagates. -/
def checkForNewLoads (env : Env) (s : LoadState) : LoadState × Option PyErr :=
  match env.recentLoads (scanRef s) with
  | [] => (s, none)
  | nextLoads :: _ =>
    let nextStart := env.startTime nextLoads
    match env.firstTimeVCDU nextLoads with
    | none => (s, some PyErr.typeError)
    | some (firstTime, firstVCDU) =>
      if pyTruthy nextStart && decide (firstVCDU ≠ 0) then
        ({ s with
            nextLoads := some nextLoads
            nextStart := nextStart.getD ""
            nextFirstTime := firstTime
            nextFirstVCDU := firstVCDU }, none)
      else (s, none)

/-- The switch condition of `checkAndChangeLoads` (source lines 179-183):
`atVCDU is not None and (atVCDU >= nextFirstVCDU or atVCDU >= stateVCDU(klast))
 or atTime and (atTime >= nextFirstTime or atTime >= stateTime(klast))`
with `klast = len(svrdb) - 1`.  Both comparisons on the VCDU side are
plain integer `>=` — `deltaVCDU` is not consulted here. -/
def switchRequired (s : LoadState) (atTime : Option String) (atVCDU : Option Int) : Bool :=
  (match atVCDU with
   | some v =>
     decide (s.nextFirstVCDU ≤ v) || decide (stateVCDU s.svrdb (s.svrdb.length - 1) ≤ v)
   | none => false)
  ||
  (match atTime with
   | some t =>
     decide (t ≠ "") &&
       (pyStrLe s.nextFirstTime t || pyStrLe (stateTime s.svrdb (s.svrdb.length - 1)) t)
   | none => false)

/-- `checkAndChangeLoads(atTime, atVCDU)` (source lines 174-190): when the
switch condition holds, either activate `nextLoads` (slurp it and re-run
`checkForNewLoads`) or, with no `nextLoads`, raise
`CurrentLoadException("No new loads found")`. -/
def checkAndChangeLoads (env : Env) (s : LoadState) (atTime : Option String)
    (atVCDU : Option Int) : LoadState × Option PyErr :=
  if switchRequired s atTime atVCDU then
    match s.nextLoads with
    | some nl => checkForNewLoads env (slurpState env s nl)
    | none => (s, some noNewLoads)
  else (s, none)

/-- `getStateAtTime(atTime)` (source lines 192-210): check for a load
switch, then resolve by linear search from the cursor, update the cursor
and return the record there.  An error from `checkAndChangeLoads`
propagates with the state as it stood at the raise. -/
def getStateAtTime (env : Env) (s : LoadState) (atTime : String) :
    LoadState × Except PyErr SVRecord :=
  match checkAndChangeLoads env s (some atTime) none with
  | (s1, some e) => (s1, Except.error e)
  | (s1, none) =>
    ({ s1 with currentStateIndex := getStateAtTimeIndex s1.svrdb s1.currentStateIndex atTime },
     Except.ok (s1.svrdb.getD (getStateAtTimeIndex s1.svrdb s1.currentStateIndex atTime) default))

/-- `getStateAtVCDU(atVCDU)` (source lines 212-236). -/
def getStateAtVCDU (env : Env) (s : LoadState) (atVCDU : Int) :
    LoadState × Except PyErr SVRecord :=
  match checkAndChangeLoads env s none (some atVCDU) with
  | (s1, some e) => (s1, Except.error e)
  | (s1, none) =>
    ({ s1 with currentStateIndex := getStateAtVCDUIndex s1.svrdb s1.currentStateIndex atVCDU },
     Except.ok (s1.svrdb.getD (getStateAtVCDUIndex s1.svrdb s1.currentStateIndex atVCDU) default))

/-- `binaryGetStateAtTime(atTime)` (source lines 238-252). -/
def binaryGetStateAtTime (env : Env) (s : LoadState) (atTime : String) :
    LoadState × Except PyErr SVRecord :=
  match checkAndChangeLoads env s (some atTime) none with
  | (s1, some e) => (s1, Except.error e)
  | (s1, none) =>
    ({ s1 with currentStateIndex := binaryGetStateAtTimeIndex s1.svrdb atTime },
     Except.ok (s1.svrdb.getD (binaryGetStateAtTimeIndex s1.svrdb atTime) default))

/-- `binaryGetStateAtVCDU(atVCDU)` (source lines 254-269). -/
def binaryGetStateAtVCDU (env : Env) (s : LoadState) (atVCDU : Int) :
    LoadState × Except PyErr SVRecord :=
  match checkAndChangeLoads env s none (some atVCDU) with
  | (s1, some e) => (s1, Except.error e)
  | (s1, none) =>
    ({ s1 with currentStateIndex := binaryGetStateAtVCDUIndex s1.svrdb atVCDU },
     Except.ok (s1.svrdb.getD (binaryGetStateAtVCDUIndex s1.svrdb atVCDU) default))

/-- The fixed-length tail of the load review directory name pattern
`lrdre = (.*/\d{4}:\d{3}:([A-N])-[A-Z]{3}\d{4}\2)` (source line 52): four
digits, `:`, three digits, `:`, a revision letter `A`-`N`, `-`, three
capital letters, four digits, and the same revision letter again —
19 characters. -/
def lrdShape (cs : List Char) : Bool :=
  match cs with
  | [y1, y2, y3, y4, c1, d1, d2, d3, c2, r, dash, l1, l2, l3, s1, s2, s3, s4, r2] =>
    y1.isDigit && y2.isDigit && y3.isDigit && y4.isDigit && c1 == ':' &&
    d1.isDigit && d2.isDigit && d3.isDigit && c2 == ':' &&
    decide ('A' ≤ r) && decide (r ≤ 'N') && dash == '-' &&
    decide ('A' ≤ l1) && decide (l1 ≤ 'Z') &&
    decide ('A' ≤ l2) && decide (l2 ≤ 'Z') &&
    decide ('A' ≤ l3) && decide (l3 ≤ 'Z') &&
    s1.isDigit && s2.isDigit && s3.isDigit && s4.isDigit && r2 == r
  | _ => false

/-- `CurrentLoad.lrdre.match(t)` and its `group(1)` (source lines 71-73).
`re.match` anchors at the start; the greedy `.*` means the match, when one
exists, puts the final `/` before the 19-character tail at the rightmost
position that works, and `group(1)` is everything up to and including
that tail (trailing characters are not required to match). -/
def lrdMatch (t : String) : Option String :=
  match (List.range t.data.length).reverse.find?
      (fun p => (t.data.getD p ' ' == '/') && lrdShape ((t.data.drop (p + 1)).take 19)) with
  | some p => some (String.mk (t.data.take (p + 20)))
  | none => none

/-- `t[-8:-1]` (source line 77): the seven characters before the final
revision letter, the key the pruning dictionary groups by. -/
def lrdate (t : String) : String :=
  String.mk ((t.data.drop (t.data.length - 8)).dropLast)

/-- One iteration of the pruning loop (source lines 76-79): keep, per
`lrdate` key, the lexicographically greatest directory name seen so far.
The dictionary is modelled as an association list in insertion order. -/
def pruneStep (m : List (String × String)) (t : String) : List (String × String) :=
  match m.find? (fun pr => pr.1 == lrdate t) with
  | none => m ++ [(lrdate t, t)]
  | some _ =>
    m.map (fun pr => if pr.1 == lrdate t then (if pyStrLt pr.2 t then (pr.1, t) else pr) else pr)

/-- The pruning dictionary built from the filtered directory list. -/
def prune (dirlist : List String) : List (String × String) :=
  dirlist.foldl pruneStep []

/-- The pure core of `getRecentLoads` (source lines 57-84): the `find`
subprocess's output lines are the input `rawlist` and the filesystem
modification times the input `mtime`; the function filters by the naming
pattern, prunes to the greatest name per `lrdate` key, and sorts the kept
values with most recent first (`list.sort(key=mtime, reverse=True)`). -/
def getRecentLoadsPure (rawlist : List String) (mtime : String → Int) : List String :=
  ((prune (rawlist.filterMap lrdMatch)).map Prod.snd).mergeSort
    (fun a b => decide (mtime b ≤ mtime a))

/-! ### Characterization of the three search loops

Each loop is characterized against a "boundary" index `k`: the predicate
holds up to `k` and fails strictly after it (up to the end of the range).
These lemmas do not assume anything global about `p` beyond that local
shape, which is exactly what a well-formed (sorted) load provides. -/

theorem fwdAux_spec (p : Nat → Bool) (n : Nat) :
    ∀ (fuel i k : Nat), i ≤ k → k ≤ i + fuel →
    (∀ j, i ≤ j → j < k → p j = true) →
    (k = n ∨ (k < n ∧ p k = false)) →
    fwdAux p n fuel i = k := by
  intro fuel
  induction fuel with
  | zero =>
    intro i k h1 h2 h3 h4
    have hik : i = k := by omega
    subst hik
    rfl
  | succ f ih =>
    intro i k h1 h2 h3 h4
    by_cases hik : i = k
    · subst hik
      rcases h4 with rfl | ⟨hn, hp⟩
      · simp [fwdAux]
      · simp [fwdAux, hn, hp]
    · have hik' : i < k := lt_of_le_of_ne h1 hik
      have hin : i < n := by rcases h4 with rfl | ⟨hn, _⟩ <;> omega
      have hpi : p i = true := h3 i le_rfl hik'
      simp only [fwdAux, if_pos hin, hpi, if_true]
      exact ih (i + 1) k (by omega) (by omega) (fun j hj1 hj2 => h3 j (by omega) hj2) h4

theorem bwdAux_spec (p : Nat → Bool) (lo : Nat) :
    ∀ (fuel i k : Nat), lo ≤ k → k ≤ i → i ≤ k + fuel →
    (∀ j, k < j → j ≤ i → p j = false) →
    (k = lo ∨ p k = true) →
    bwdAux p lo fuel i = k := by
  intro fuel
  induction fuel with
  | zero =>
    intro i k h1 h2 h3 h4 h5
    have hik : i = k := by omega
    subst hik
    rfl
  | succ f ih =>
    intro i k h1 h2 h3 h4 h5
    by_cases hik : i = k
    · subst hik
      rcases h5 with rfl | hp
      · simp [bwdAux]
      · by_cases hlo : lo < i
        · simp [bwdAux, hlo, hp]
        · simp [bwdAux, hlo]
    · have hik' : k < i := lt_of_le_of_ne h2 fun h => hik h.symm
      have hloi : lo < i := by omega
      have hpi : p i = false := h4 i hik' le_rfl
      simp only [bwdAux, if_pos hloi, hpi, Bool.false_eq_true, if_false]
      exact ih (i - 1) k h1 (by omega) (by omega)
        (fun j hj1 hj2 => h4 j hj1 (by omega)) h5

theorem binAux_spec (p : Nat → Bool) :
    ∀ (fuel klo khi k : Nat), klo ≤ k → k < khi → khi - klo ≤ fuel →
    (∀ j, klo < j → j ≤ k → p j = true) →
    (∀ j, k < j → j < khi → p j = false) →
    binAux p fuel klo khi = k := by
  intro fuel
  induction fuel with
  | zero =>
    intro klo khi k h1 h2 h3 h4 h5
    exfalso
    omega
  | succ f ih =>
    intro klo khi k h1 h2 h3 h4 h5
    by_cases h : klo + 1 < khi
    · cases hp : p ((klo + khi) / 2) with
      | false =>
        have hkm : k < (klo + khi) / 2 := by
          by_contra hh
          push_neg at hh
          have := h4 ((klo + khi) / 2) (by omega) hh
          rw [hp] at this
          exact Bool.false_ne_true this
        simp only [binAux, if_pos h, hp, Bool.false_eq_true, if_false]
        exact ih klo ((klo + khi) / 2) k h1 hkm (by omega) h4
          (fun j hj1 hj2 => h5 j hj1 (by omega))
      | true =>
        have hmk : (klo + khi) / 2 ≤ k := by
          by_contra hh
          push_neg at hh
          have := h5 ((klo + khi) / 2) hh (by omega)
          rw [hp] at this
          exact Bool.false_ne_true this.symm
        simp only [binAux, if_pos h, hp, if_true]
        exact ih ((klo + khi) / 2) khi k hmk h2 (by omega)
          (fun j hj1 hj2 => h4 j (by omega) hj2) h5
    · have hk : k = klo := by omega
      simp [binAux, h, hk]

theorem fwdScan_spec (p : Nat → Bool) (n i k : Nat) (h1 : i ≤ k) (h2 : k ≤ n)
    (h3 : ∀ j, i ≤ j → j < k → p j = true)
    (h4 : k = n ∨ (k < n ∧ p k = false)) : fwdScan p n i = k :=
  fwdAux_spec p n (n - i) i k h1 (by omega) h3 h4

theorem bwdScan_spec (p : Nat → Bool) (lo i k : Nat) (h1 : lo ≤ k) (h2 : k ≤ i)
    (h3 : ∀ j, k < j → j ≤ i → p j = false)
    (h4 : k = lo ∨ p k = true) : bwdScan p lo i = k :=
  bwdAux_spec p lo i i k h1 h2 (by omega) h3 h4

theorem binSearch_spec (p : Nat → Bool) (klo khi k : Nat) (h1 : klo ≤ k) (h2 : k < khi)
    (h3 : ∀ j, klo < j → j ≤ k → p j = true)
    (h4 : ∀ j, k < j → j < khi → p j = false) : binSearch p klo khi = k :=
  binAux_spec p (khi - klo) klo khi k h1 h2 (by omega) h3 h4

/-- The linear search started at any valid cursor resolves the boundary
index `k`: the largest index in `[lo, n)` up to which `p` still holds. -/
theorem linSearch_spec (p : Nat → Bool) (lo n cur k : Nat) (hlo : lo ≤ k) (hkn : k < n)
    (hc1 : lo ≤ cur) (hc2 : cur < n)
    (H1 : ∀ j, lo ≤ j → j ≤ k → p j = true)
    (H2 : ∀ j, k < j → j < n → p j = false) : linSearch p lo n cur = k := by
  by_cases hp : p cur = true
  · have hck : cur ≤ k := by
      by_contra hh
      push_neg at hh
      have := H2 cur hh hc2
      rw [hp] at this
      exact Bool.false_ne_true this.symm
    simp only [linSearch, if_pos hp]
    have hf : fwdScan p n (cur + 1) = k + 1 :=
      fwdScan_spec p n (cur + 1) (k + 1) (by omega) (by omega)
        (fun j hj1 hj2 => H1 j (by omega) (by omega))
        (by
          rcases Nat.lt_or_ge (k + 1) n with h | h
          · exact Or.inr ⟨h, H2 (k + 1) (by omega) h⟩
          · exact Or.inl (by omega))
    rw [hf]
    omega
  · have hp' : p cur = false := by
      revert hp
      cases p cur <;> simp
    have hck : k < cur := by
      by_contra hh
      push_neg at hh
      rw [H1 cur hc1 hh] at hp'
      exact Bool.false_ne_true hp'.symm
    simp only [linSearch, hp', Bool.false_eq_true, if_false]
    exact bwdScan_spec p lo (cur - 1) k hlo (by omega)
      (fun j hj1 hj2 => H2 j hj1 (by omega))
      (Or.inr (H1 k hlo le_rfl))

/-! ### Order facts about the modelled Python string comparison -/

theorem lexLe_refl : ∀ a : List Char, lexLe a a = true
  | [] => rfl
  | a :: as => by simp [lexLe, lt_irrefl, lexLe_refl as]

theorem lexLe_trans : ∀ a b c : List Char,
    lexLe a b = true → lexLe b c = true → lexLe a c = true
  | [], _, _ => fun _ _ => rfl
  | _ :: _, [], _ => by intro h _; simp [lexLe] at h
  | _ :: _, _ :: _, [] => by intro _ h; simp [lexLe] at h
  | a :: as, b :: bs, c :: cs => by
    intro h1 h2
    by_cases hab : a < b
    · by_cases hbc : b < c
      · simp [lexLe, lt_trans hab hbc]
      · by_cases hcb : c < b
        · simp [lexLe, hbc, hcb] at h2
        · have hbceq : b = c := le_antisymm (le_of_not_lt hcb) (le_of_not_lt hbc)
          subst hbceq
          simp [lexLe, hab]
    · by_cases hba : b < a
      · simp [lexLe, hab, hba] at h1
      · have habeq : a = b := le_antisymm (le_of_not_lt hba) (le_of_not_lt hab)
        subst habeq
        simp only [lexLe, lt_irrefl, if_false] at h1
        by_cases hac : a < c
        · simp [lexLe, hac]
        · by_cases hca : c < a
          · simp [lexLe, hac, hca] at h2
          · simp only [lexLe, hac, hca, if_false] at h2 ⊢
            exact lexLe_trans as bs cs h1 h2

theorem lexLe_total : ∀ a b : List Char, lexLe a b = true ∨ lexLe b a = true
  | [], _ => Or.inl rfl
  | _ :: _, [] => Or.inr rfl
  | a :: as, b :: bs => by
    rcases lt_trichotomy a b with h | h | h
    · exact Or.inl (by simp [lexLe, h])
    · subst h
      rcases lexLe_total as bs with ih | ih
      · exact Or.inl (by simp [lexLe, lt_irrefl, ih])
      · exact Or.inr (by simp [lexLe, lt_irrefl, ih])
    · exact Or.inr (by simp [lexLe, h])

theorem lexLe_antisymm : ∀ a b : List Char,
    lexLe a b = true → lexLe b a = true → a = b
  | [], [] => fun _ _ => rfl
  | [], _ :: _ => by intro _ h; simp [lexLe] at h
  | _ :: _, [] => by intro h _; simp [lexLe] at h
  | a :: as, b :: bs => by
    intro h1 h2
    by_cases hab : a < b
    · simp [lexLe, hab, lt_asymm hab] at h2
    · by_cases hba : b < a
      · simp [lexLe, hab, hba] at h1
      · have habeq : a = b := le_antisymm (le_of_not_lt hba) (le_of_not_lt hab)
        subst habeq
        simp only [lexLe, lt_irrefl, if_false] at h1 h2
        rw [lexLe_antisymm as bs h1 h2]

/-- Python's strict comparison is the complement of the reversed weak one. -/
theorem lexLt_eq_not_lexLe : ∀ a b : List Char, lexLt a b = !lexLe b a
  | [], [] => rfl
  | [], _ :: _ => rfl
  | _ :: _, [] => rfl
  | a :: as, b :: bs => by
    by_cases hab : a < b
    · simp [lexLt, lexLe, hab, lt_asymm hab]
    · by_cases hba : b < a
      · simp [lexLt, lexLe, hab, hba]
      · simp only [lexLt, lexLe, hab, hba, if_false]
        exact lexLt_eq_not_lexLe as bs

theorem pyStrLe_refl (a : String) : pyStrLe a a = true :=
  lexLe_refl a.data

theorem pyStrLe_trans {a b c : String} (h1 : pyStrLe a b = true)
    (h2 : pyStrLe b c = true) : pyStrLe a c = true :=
  lexLe_trans a.data b.data c.data h1 h2

theorem pyStrLe_total (a b : String) : pyStrLe a b = true ∨ pyStrLe b a = true :=
  lexLe_total a.data b.data

theorem pyStrLe_antisymm {a b : String} (h1 : pyStrLe a b = true)
    (h2 : pyStrLe b a = true) : a = b := by
  cases a with
  | mk da =>
    cases b with
    | mk db =>
      rw [lexLe_antisymm da db h1 h2]

theorem pyStrLt_eq_not_pyStrLe (a b : String) : pyStrLt a b = !pyStrLe b a :=
  lexLt_eq_not_lexLe a.data b.data

/-! ### Claim C6: range and congruence of `deltaVCDU` -/

/-- C6 (counterexample): at `a = 2^23`, `b = 0` — both in `[0, 2^24)` —
`deltaVCDU` returns `-2^23`, which is congruent to `b - a` but lies
outside the claimed half-open interval `(-2^23, 2^23]`. -/
theorem c6_delta_outside_interval :
    (0 : Int) ≤ 8388608 ∧ (8388608 : Int) < vcduWrap ∧
    deltaVCDU 8388608 0 = -8388608 ∧
    ¬ (-(8388608 : Int) < deltaVCDU 8388608 0) := by decide

/-- C6 (amended): for `a, b` in `[0, 2^24)`, `deltaVCDU a b` is congruent
to `b - a` modulo `2^24` and lies in the closed interval
`[-2^23, 2^23]`; it is moreover the unique such value in the half-open
interval `(-2^23, 2^23]` except when `b - a = -2^23` (the antipodal
point approached from below), where it is `-2^23` itself. -/
theorem c6_delta_range (a b : Int) (ha0 : 0 ≤ a) (ha1 : a < vcduWrap)
    (hb0 : 0 ≤ b) (hb1 : b < vcduWrap) :
    vcduWrap ∣ (b - a - deltaVCDU a b) ∧
    -(8388608 : Int) ≤ deltaVCDU a b ∧ deltaVCDU a b ≤ 8388608 ∧
    (b - a ≠ -8388608 → -(8388608 : Int) < deltaVCDU a b) ∧
    (∀ x : Int, -(8388608 : Int) < x → x ≤ 8388608 → vcduWrap ∣ (b - a - x) →
      b - a ≠ -8388608 → x = deltaVCDU a b) := by
  have hW : vcduWrap = 16777216 := rfl
  simp only [deltaVCDU, abs_eq_max_neg, hW] at *
  split_ifs with h1 h2 h3 <;>
    refine ⟨?_, by omega, by omega, fun hne => by omega,
      fun x hx1 hx2 hdvd hne => ?_⟩ <;> omega

/-- Closed instance of `c6_delta_range` at the spec's transition scenario
values `a = 16777210`, `b = 10`. -/
theorem c6_delta_range_witness :
    vcduWrap ∣ (10 - 16777210 - deltaVCDU 16777210 10) :=
  (c6_delta_range 16777210 10 (by decide) (by decide) (by decide) (by decide)).1

/-! ### Concrete loads used as inputs

`pad3 k` renders `k < 1000` as three digits, so the timestamps
`"000" < "001" < ... < "042"` are lexicographically ordered exactly like
the indices.  `demoLoad` is a well-formed 43-record load (times and
counters strictly increasing), `demoState` a `CurrentLoad` whose cursor
sits at `startIndex` with no pending transition and whose stale
`nextFirstTime`/`nextFirstVCDU` sit far above every query used on it. -/
def pad3 (k : Nat) : String :=
  (if k < 10 then "00" else if k < 100 then "0" else "") ++ toString k

def demoLoad : List SVRecord :=
  (List.range 43).map (fun k => ⟨pad3 k, (k : Int), ""⟩)

def quietEnv : Env :=
  ⟨fun _ => [], fun _ => none, fun _ => none, fun _ => []⟩

def demoState : LoadState :=
  { svrdb := demoLoad
    currentStateIndex := 40
    currentLoads := "CUR"
    nextLoads := none
    nextStart := ""
    nextFirstTime := "zzz"
    nextFirstVCDU := 99999999 }

/-! ### Claims C1, C2, C7: the backward scan steps below `startIndex`

When the cursor sits at `startIndex` and the query precedes the record
there, the linear searches start their backward scan at
`startIndex - 1 = 39` and the loop guard `while i > startIndex` never
runs, so index 39 — a record carried over from the previous load — is
resolved and returned, the cursor drops below `startIndex`, and each
further such query walks one index lower.  The binary searches clamp at
`startIndex` on the same query. -/

/-- C1 (failing input): on the well-formed `demoLoad` (times strictly
increasing from the 40th record on), querying time `"039"` with the
cursor at `startIndex = 40` resolves index 39 under the linear strategy
but index 40 under the binary strategy, and the two calls return
different records. -/
theorem c1_linear_binary_disagree :
    (demoLoad.map SVRecord.time).Pairwise (fun a b => pyStrLe a b = true) ∧
    demoState.currentStateIndex = startIndex ∧
    (getStateAtTime quietEnv demoState "039").1.currentStateIndex = 39 ∧
    (binaryGetStateAtTime quietEnv demoState "039").1.currentStateIndex = 40 ∧
    (getStateAtTime quietEnv demoState "039").2 =
      Except.ok { time := "039", vcdu := 39, payload := "" } ∧
    (binaryGetStateAtTime quietEnv demoState "039").2 =
      Except.ok { time := "040", vcdu := 40, payload := "" } ∧
    (getStateAtVCDU quietEnv demoState 39).1.currentStateIndex = 39 ∧
    (binaryGetStateAtVCDU quietEnv demoState 39).1.currentStateIndex = 40 := by
  refine ⟨by decide, rfl, rfl, rfl, rfl, rfl, rfl, rfl⟩

/-- C2 (failing input): the same query resolves an index strictly below
`startIndex` and returns the carried-over record 39 — by time, and by
VCDU (query counter 39, `deltaVCDU(40, 39) = -1 < 0`). -/
theorem c2_resolves_below_startIndex :
    (getStateAtTime quietEnv demoState "039").1.currentStateIndex < startIndex ∧
    (getStateAtTime quietEnv demoState "039").2 =
      Except.ok { time := "039", vcdu := 39, payload := "" } ∧
    (getStateAtVCDU quietEnv demoState 39).1.currentStateIndex < startIndex ∧
    (getStateAtVCDU quietEnv demoState 39).2 =
      Except.ok { time := "039", vcdu := 39, payload := "" } := by
  refine ⟨by decide, rfl, by decide, rfl⟩

/-- C7 (failing input): two successive queries with equal (hence
non-decreasing) time values `"038"`, issued within one load (no
transition is triggered), resolve indices 39 and then 38 — strictly
decreasing. -/
theorem c7_indices_decrease :
    pyStrLe "038" "038" = true ∧
    (getStateAtTime quietEnv demoState "038").1.currentStateIndex = 39 ∧
    (getStateAtTime quietEnv demoState "038").1.currentLoads =
      demoState.currentLoads ∧
    (getStateAtTime quietEnv (getStateAtTime quietEnv demoState "038").1
        "038").1.currentStateIndex = 38 := by
  refine ⟨by decide, rfl, rfl, rfl⟩

/-! ### Claim C4: boundary crossed with no pending candidate -/

/-- C4: when `nextLoads` is unset and a query value reaches
`nextFirstTime`/`nextFirstVCDU` or the last loaded record, every query
(linear or binary, by time or by counter) fails with
`CurrentLoadException("No new loads found")` and leaves the whole state —
in particular `svrdb`, `currentLoads` and `currentStateIndex` —
unchanged. -/
theorem c4_no_new_load_found (env : Env) (s : LoadState) (t : String) (v : Int)
    (hnl : s.nextLoads = none) :
    (t ≠ "" →
      pyStrLe s.nextFirstTime t = true ∨
        pyStrLe (stateTime s.svrdb (s.svrdb.length - 1)) t = true →
      getStateAtTime env s t = (s, Except.error noNewLoads) ∧
      binaryGetStateAtTime env s t = (s, Except.error noNewLoads)) ∧
    (s.nextFirstVCDU ≤ v ∨ stateVCDU s.svrdb (s.svrdb.length - 1) ≤ v →
      getStateAtVCDU env s v = (s, Except.error noNewLoads) ∧
      binaryGetStateAtVCDU env s v = (s, Except.error noNewLoads)) := by
  constructor
  · intro ht hor
    have hsw : switchRequired s (some t) none = true := by
      simp only [switchRequired]
      rcases hor with h | h <;> simp [h, ht]
    have hc : checkAndChangeLoads env s (some t) none = (s, some noNewLoads) := by
      simp [checkAndChangeLoads, hsw, hnl]
    constructor
    · simp [getStateAtTime, hc]
    · simp [binaryGetStateAtTime, hc]
  · intro hor
    have hsw : switchRequired s none (some v) = true := by
      simp only [switchRequired]
      rcases hor with h | h <;> simp [h]
    have hc : checkAndChangeLoads env s none (some v) = (s, some noNewLoads) := by
      simp [checkAndChangeLoads, hsw, hnl]
    constructor
    · simp [getStateAtVCDU, hc]
    · simp [binaryGetStateAtVCDU, hc]

/-- Closed instance of `c4_no_new_load_found`: on `demoState` (no pending
load, stale boundary `"zzz"`) the query at `"zzz"` fails and the state is
untouched. -/
theorem c4_no_new_load_found_witness :
    getStateAtTime quietEnv demoState "zzz" = (demoState, Except.error noNewLoads) :=
  ((c4_no_new_load_found quietEnv demoState "zzz" 0 rfl).1 (by decide)
    (Or.inl (by decide))).1

/-! ### Claim C10: the activation boundary goes stale after a switch -/

/-- C10: a switch activates `nl` via `slurpState`, which clears
`nextLoads` but leaves `nextFirstTime`/`nextFirstVCDU` holding `nl`'s own
first-record boundary (hypothesis `hfirst`); when the immediately
following `checkForNewLoads` finds nothing, every later query at or past
that stale boundary raises `CurrentLoadException("No new loads found")`
instead of resolving inside the newly active load. -/
theorem c10_stale_boundary (env : Env) (s : LoadState) (nl : String)
    (hnl : s.nextLoads = some nl)
    (hempty : env.recentLoads nl = [])
    (hfirst : env.firstTimeVCDU nl = some (s.nextFirstTime, s.nextFirstVCDU)) :
    checkForNewLoads env (slurpState env s nl) = (slurpState env s nl, none) ∧
    (slurpState env s nl).nextLoads = none ∧
    (slurpState env s nl).nextFirstTime = s.nextFirstTime ∧
    (slurpState env s nl).nextFirstVCDU = s.nextFirstVCDU ∧
    (slurpState env s nl).currentLoads = nl ∧
    (∀ t : String, t ≠ "" → pyStrLe s.nextFirstTime t = true →
      getStateAtTime env (slurpState env s nl) t =
        (slurpState env s nl, Except.error noNewLoads)) ∧
    (∀ v : Int, s.nextFirstVCDU ≤ v →
      getStateAtVCDU env (slurpState env s nl) v =
        (slurpState env s nl, Except.error noNewLoads)) := by
  have h1 : checkForNewLoads env (slurpState env s nl) = (slurpState env s nl, none) := by
    simp [checkForNewLoads, scanRef, slurpState, hempty]
  refine ⟨h1, rfl, rfl, rfl, rfl, ?_, ?_⟩
  · intro t ht hle
    have hsw : switchRequired (slurpState env s nl) (some t) none = true := by
      simp only [switchRequired, slurpState]
      simp [hle, ht]
    have hc : checkAndChangeLoads env (slurpState env s nl) (some t) none =
        (slurpState env s nl, some noNewLoads) := by
      simp only [checkAndChangeLoads, hsw, if_true]
      rfl
    simp [getStateAtTime, hc]
  · intro v hv
    have hsw : switchRequired (slurpState env s nl) none (some v) = true := by
      simp only [switchRequired, slurpState]
      simp [hv]
    have hc : checkAndChangeLoads env (slurpState env s nl) none (some v) =
        (slurpState env s nl, some noNewLoads) := by
      simp only [checkAndChangeLoads, hsw, if_true]
      rfl
    simp [getStateAtVCDU, hc]

def c10Env : Env :=
  ⟨fun _ => [], fun _ => none,
   fun d => if d = "NEW" then some ("100", 7) else none,
   fun d => if d = "NEW" then demoLoad else []⟩

def c10State : LoadState :=
  { svrdb := []
    currentStateIndex := 40
    currentLoads := "OLD"
    nextLoads := some "NEW"
    nextStart := ""
    nextFirstTime := "100"
    nextFirstVCDU := 7 }

/-- Closed instance of `c10_stale_boundary`: after activating `"NEW"` with
nothing newer on disk, the query at the stale boundary time `"100"`
fails. -/
theorem c10_stale_boundary_witness :
    getStateAtTime c10Env (slurpState c10Env c10State "NEW") "100" =
      (slurpState c10Env c10State "NEW", Except.error noNewLoads) :=
  (c10_stale_boundary c10Env c10State "NEW" rfl rfl rfl).2.2.2.2.2.1 "100"
    (by decide) (by decide)

/-! ### Claim C3: the switch condition for counter queries

`checkAndChangeLoads` compares counters with plain integer `>=`
(source lines 179-180), not with `deltaVCDU`.  The spec's transition
scenario still goes through because `10 >= 5` holds for the pending
load's activation counter. -/

/-- Active load for the transition scenario: 41 records whose last
(index 40) has counter 16777210. -/
def c3OldLoad : List SVRecord :=
  (List.range 41).map (fun k => ⟨pad3 k, 16777170 + (k : Int), ""⟩)

/-- Pending load for the transition scenario: 43 records; the genuine
entries from `startIndex` on carry counters 5, 8, 12 past the wrap. -/
def c3NewLoad : List SVRecord :=
  (List.range 43).map (fun k =>
    ⟨pad3 (100 + k),
     if k = 40 then 5 else if k = 41 then 8 else if k = 42 then 12
     else 16777130 + (k : Int), ""⟩)

def c3Env : Env :=
  ⟨fun _ => [], fun _ => none, fun _ => none,
   fun d => if d = "NEW" then c3NewLoad else []⟩

def c3State : LoadState :=
  { svrdb := c3OldLoad
    currentStateIndex := 40
    currentLoads := "OLD"
    nextLoads := some "NEW"
    nextStart := "090"
    nextFirstTime := "100"
    nextFirstVCDU := 5 }

/-- A state whose pending activation counter sits just past the wrap. -/
def c3StaleState : LoadState :=
  { c3State with nextFirstVCDU := 16777211 }

/-- C3 (counterexample): with the last active record at counter 16777210
and the pending activation counter at 16777211, the query `V = 10`
satisfies the claimed condition — both `deltaVCDU` values wrap to small
positives — yet `checkAndChangeLoads` performs no switch and raises
nothing: the code compares with plain `>=`, not with `deltaVCDU`. -/
theorem c3_delta_condition_ignored :
    (0 ≤ deltaVCDU (stateVCDU c3StaleState.svrdb (c3StaleState.svrdb.length - 1)) 10 ∨
      0 ≤ deltaVCDU c3StaleState.nextFirstVCDU 10) ∧
    c3StaleState.nextLoads = some "NEW" ∧
    checkAndChangeLoads c3Env c3StaleState none (some 10) = (c3StaleState, none) := by
  refine ⟨Or.inl (by decide), rfl, by decide⟩

/-- C3 (amended): before a counter query `V`, `checkAndChangeLoads`
requires a switch exactly when `V >= pending.activationCounter` or
`V >= lastRecordCounter` under plain integer comparison (no wraparound
delta); the spec's transition scenario — last active counter 16777210,
pending activation counter 5, query `V = 10` — still triggers exactly
one switch (because `10 >= 5`) and resolves at index 41 inside the new
load. -/
theorem c3_switch_plain_comparison :
    (∀ (s : LoadState) (v : Int),
      switchRequired s none (some v) = true ↔
        (s.nextFirstVCDU ≤ v ∨ stateVCDU s.svrdb (s.svrdb.length - 1) ≤ v)) ∧
    stateVCDU c3State.svrdb (c3State.svrdb.length - 1) = 16777210 ∧
    c3State.nextFirstVCDU = 5 ∧
    stateVCDU c3NewLoad startIndex = 5 ∧
    (getStateAtVCDU c3Env c3State 10).1.currentLoads = "NEW" ∧
    (getStateAtVCDU c3Env c3State 10).1.nextLoads = none ∧
    (getStateAtVCDU c3Env c3State 10).1.currentStateIndex = 41 ∧
    startIndex ≤ 41 ∧ 41 < c3NewLoad.length ∧
    (getStateAtVCDU c3Env c3State 10).2 =
      Except.ok { time := "141", vcdu := 8, payload := "" } := by
  refine ⟨fun s v => ?_, by decide, rfl, by decide, rfl, rfl, by decide, by decide,
    by decide, rfl⟩
  simp [switchRequired]

/-! ### Claim C8: what `checkForNewLoads` does with a fresh candidate

The install gate on source line 136 is `if nextStart and firstVCDU:` —
Python truthiness — so a first record whose counter is 0 is discarded
exactly like a failed read, and a failed `firstTimeVCDU` read does not
discard silently but raises a `TypeError` at the unpacking on line 134. -/

def c8Env : Env :=
  ⟨fun _ => ["NEW"],
   fun _ => some "2024:002:00:00:00.000",
   fun _ => some ("2024:001:00:00:00.000", 0),
   fun _ => []⟩

def c8State : LoadState :=
  { svrdb := []
    currentStateIndex := 40
    currentLoads := "OLD"
    nextLoads := none
    nextStart := ""
    nextFirstTime := ""
    nextFirstVCDU := 1 }

/-- C8 (counterexample): a candidate directory is found, the
first-command-time read succeeds and the first-state-vector-record read
succeeds with counter value 0 — yet no pending transition is installed
and the state is returned unchanged. -/
theorem c8_zero_counter_discarded :
    c8Env.recentLoads (scanRef c8State) = ["NEW"] ∧
    c8Env.startTime "NEW" = some "2024:002:00:00:00.000" ∧
    c8Env.firstTimeVCDU "NEW" = some ("2024:001:00:00:00.000", 0) ∧
    checkForNewLoads c8Env c8State = (c8State, none) ∧
    (checkForNewLoads c8Env c8State).1.nextLoads = none := by
  refine ⟨rfl, rfl, rfl, by decide, rfl⟩

/-- C8 (amended): when the scan yields a newer candidate `nl`, the
pending transition is installed iff the first-command-time read is
truthy AND the first-record read succeeds with a nonzero counter; a
falsy first-command time or a zero counter discards the candidate for
this cycle with no error; a failed first-record read raises a
`TypeError` to the caller (the `None` is unpacked before the guard). -/
theorem c8_install_characterization (env : Env) (s : LoadState) (nl : String)
    (rest : List String) (hdir : env.recentLoads (scanRef s) = nl :: rest) :
    (env.firstTimeVCDU nl = none →
      checkForNewLoads env s = (s, some PyErr.typeError)) ∧
    (∀ ft fv, env.firstTimeVCDU nl = some (ft, fv) →
      ((pyTruthy (env.startTime nl) = true ∧ fv ≠ 0 →
        checkForNewLoads env s =
          ({ s with
              nextLoads := some nl
              nextStart := (env.startTime nl).getD ""
              nextFirstTime := ft
              nextFirstVCDU := fv }, none)) ∧
       (pyTruthy (env.startTime nl) = false ∨ fv = 0 →
        checkForNewLoads env s = (s, none)))) := by
  constructor
  · intro h
    simp [checkForNewLoads, hdir, h]
  · intro ft fv h
    constructor
    · rintro ⟨h1, h2⟩
      simp [checkForNewLoads, hdir, h, h1, h2]
    · rintro (h1 | h2)
      · simp [checkForNewLoads, hdir, h, h1]
      · simp [checkForNewLoads, hdir, h, h2]

def c8GoodEnv : Env :=
  ⟨fun _ => ["NEW"],
   fun _ => some "2024:002:00:00:00.000",
   fun _ => some ("2024:001:00:00:00.000", 7),
   fun _ => []⟩

/-- Closed instance of `c8_install_characterization`: with a truthy start
time and a nonzero first counter the pending transition is installed. -/
theorem c8_install_characterization_witness :
    checkForNewLoads c8GoodEnv c8State =
      ({ c8State with
          nextLoads := some "NEW"
          nextStart := (c8GoodEnv.startTime "NEW").getD ""
          nextFirstTime := "2024:001:00:00:00.000"
          nextFirstVCDU := 7 }, none) :=
  ((c8_install_characterization c8GoodEnv c8State "NEW" [] rfl).2
    "2024:001:00:00:00.000" 7 rfl).1 ⟨by decide, by decide⟩

/-! ### Claim C5: duplicate-timestamp tie-break -/

/-- C5: in a load whose timestamps are non-decreasing from `startIndex`
on, if records `i` and `i + 1` (both at or past `startIndex`) share the
query's exact timestamp `T` and `i + 1` is the last index carrying it,
then the linear search from any valid cursor and the binary search both
resolve the later index `i + 1`. -/
theorem c5_tiebreak (svrdb : List SVRecord) (T : String) (i cur : Nat)
    (hs : ∀ k, k < svrdb.length → ∀ j, j ≤ k → startIndex ≤ j →
      pyStrLe (stateTime svrdb j) (stateTime svrdb k) = true)
    (hi : startIndex ≤ i) (hi1 : i + 1 < svrdb.length)
    (ht1 : stateTime svrdb i = T) (ht2 : stateTime svrdb (i + 1) = T)
    (hnext : i + 2 = svrdb.length ∨ pyStrLt T (stateTime svrdb (i + 2)) = true)
    (hc1 : startIndex ≤ cur) (hc2 : cur < svrdb.length) :
    getStateAtTimeIndex svrdb cur T = i + 1 ∧
    binaryGetStateAtTimeIndex svrdb T = i + 1 := by
  have H1 : ∀ j, startIndex ≤ j → j ≤ i + 1 → timePred svrdb T j = true := by
    intro j hj1 hj2
    unfold timePred
    by_cases hji : j ≤ i
    · have h := hs i (by omega) j hji hj1
      have h2 : pyStrLe (stateTime svrdb i) T = true := by
        rw [ht1]
        exact pyStrLe_refl T
      exact pyStrLe_trans h h2
    · have hj : j = i + 1 := by omega
      rw [hj, ht2]
      exact pyStrLe_refl T
  have H2 : ∀ j, i + 1 < j → j < svrdb.length → timePred svrdb T j = false := by
    intro j hj1 hj2
    rcases hnext with he | hlt
    · omega
    · have hle2 : pyStrLe (stateTime svrdb (i + 2)) T = false := by
        have hq := pyStrLt_eq_not_pyStrLe T (stateTime svrdb (i + 2))
        rw [hlt] at hq
        cases hr : pyStrLe (stateTime svrdb (i + 2)) T
        · rfl
        · rw [hr] at hq
          exact absurd hq (by decide)
      unfold timePred
      cases hq : pyStrLe (stateTime svrdb j) T
      · rfl
      · exfalso
        have hsj : pyStrLe (stateTime svrdb (i + 2)) (stateTime svrdb j) = true :=
          hs j hj2 (i + 2) (by omega) (by omega)
        have hcontra : pyStrLe (stateTime svrdb (i + 2)) T = true :=
          pyStrLe_trans hsj hq
        rw [hle2] at hcontra
        exact Bool.false_ne_true hcontra
  constructor
  · exact linSearch_spec (timePred svrdb T) startIndex svrdb.length cur (i + 1)
      (by omega) hi1 hc1 hc2 H1 H2
  · exact binSearch_spec (timePred svrdb T) startIndex svrdb.length (i + 1)
      (by omega) hi1 (fun j hj1 hj2 => H1 j (by omega) hj2) H2

/-- A 43-record load whose records 40 and 41 share the spec's tie-break
timestamp and whose record 42 is strictly later. -/
def c5Load : List SVRecord :=
  (List.range 43).map (fun k =>
    ⟨if k ≤ 39 then pad3 k
      else if k ≤ 41 then "2024:100:00:00:00.000"
      else "2024:200:00:00:00.000", (k : Int), ""⟩)

/-- Closed instance of `c5_tiebreak` on `c5Load`: both strategies resolve
index 41, the later of the two records sharing the queried timestamp. -/
theorem c5_tiebreak_witness :
    getStateAtTimeIndex c5Load 40 "2024:100:00:00:00.000" = 41 ∧
    binaryGetStateAtTimeIndex c5Load "2024:100:00:00:00.000" = 41 :=
  c5_tiebreak c5Load "2024:100:00:00:00.000" 40 40 (by decide) (by decide)
    (by decide) (by decide) (by decide) (Or.inr (by decide)) (by decide) (by decide)

/-! ### Claim C9: the directory scanner's prune-and-sort core

The dictionary loop of `getRecentLoads` keeps, for every `lrdate` key,
the lexicographically greatest directory name; `PruneInv` is its loop
invariant over the association list. -/

def PruneInv (processed : List String) (m : List (String × String)) : Prop :=
  m.Pairwise (fun a b => a.1 ≠ b.1) ∧
  (∀ pr ∈ m, pr.1 = lrdate pr.2 ∧ pr.2 ∈ processed ∧
    ∀ u ∈ processed, lrdate u = pr.1 → pyStrLe u pr.2 = true) ∧
  (∀ u ∈ processed, ∃ pr ∈ m, pr.1 = lrdate u)

/-- Weak comparison from the strict one used by the source's
`pruned[lrdate] < t` test. -/
theorem pyStrLe_of_pyStrLt {a b : String} (h : pyStrLt a b = true) :
    pyStrLe a b = true := by
  rcases pyStrLe_total a b with h1 | h1
  · exact h1
  · have h2 := pyStrLt_eq_not_pyStrLe a b
    rw [h, h1] at h2
    exact absurd h2 (by decide)

theorem pyStrLe_of_not_pyStrLt {a b : String} (h : pyStrLt a b = false) :
    pyStrLe b a = true := by
  have h2 := pyStrLt_eq_not_pyStrLe a b
  rw [h] at h2
  cases h3 : pyStrLe b a
  · rw [h3] at h2
    exact absurd h2 (by decide)
  · rfl

theorem pruneStep_inv (processed : List String) (m : List (String × String))
    (t : String) (h : PruneInv processed m) :
    PruneInv (processed ++ [t]) (pruneStep m t) := by
  obtain ⟨hpw, hent, hcov⟩ := h
  unfold pruneStep
  cases hfind : m.find? (fun pr => pr.1 == lrdate t) with
  | none =>
    have hnone : ∀ pr ∈ m, pr.1 ≠ lrdate t := by
      intro pr hpr
      have h1 := List.find?_eq_none.mp hfind pr hpr
      simpa [beq_iff_eq] using h1
    refine ⟨?_, ?_, ?_⟩
    · rw [List.pairwise_append]
      refine ⟨hpw, List.pairwise_singleton _ _, ?_⟩
      intro a ha b hb
      have hb' : b = (lrdate t, t) := by simpa using hb
      subst hb'
      exact hnone a ha
    · intro pr hpr
      rcases List.mem_append.mp hpr with h1 | h1
      · obtain ⟨hk, hmem, hmax⟩ := hent pr h1
        refine ⟨hk, List.mem_append_left _ hmem, ?_⟩
        intro u hu hud
        rcases List.mem_append.mp hu with h2 | h2
        · exact hmax u h2 hud
        · obtain rfl : t = u := (by simpa using h2 : u = t).symm
          exact absurd hud.symm (hnone pr h1)
      · have h1' : pr = (lrdate t, t) := by simpa using h1
        subst h1'
        refine ⟨rfl, List.mem_append_right _ (by simp), ?_⟩
        intro u hu hud
        rcases List.mem_append.mp hu with h2 | h2
        · exfalso
          obtain ⟨pr', hpr', hk'⟩ := hcov u h2
          exact hnone pr' hpr' (by rw [hk', hud])
        · obtain rfl : t = u := (by simpa using h2 : u = t).symm
          exact pyStrLe_refl t
    · intro u hu
      rcases List.mem_append.mp hu with h2 | h2
      · obtain ⟨pr, hpr, hk⟩ := hcov u h2
        exact ⟨pr, List.mem_append_left _ hpr, hk⟩
      · obtain rfl : t = u := (by simpa using h2 : u = t).symm
        exact ⟨(lrdate t, t), List.mem_append_right _ (by simp), rfl⟩
  | some pr0 =>
    have hmapkey : ∀ pr : String × String,
        (if pr.1 == lrdate t then (if pyStrLt pr.2 t then (pr.1, t) else pr) else pr).1
          = pr.1 := by
      intro pr
      split_ifs <;> rfl
    refine ⟨?_, ?_, ?_⟩
    · exact hpw.map _ (fun a b hab => by
        rw [hmapkey a, hmapkey b]
        exact hab)
    · intro pr' hpr'
      obtain ⟨pr, hpr, hfpr⟩ := List.mem_map.mp hpr'
      obtain ⟨hk0, hmem, hmax⟩ := hent pr hpr
      by_cases hk : pr.1 = lrdate t
      · by_cases hlt : pyStrLt pr.2 t = true
        · have hpr'' : pr' = (pr.1, t) := by rw [← hfpr]; simp [hk, hlt]
          subst hpr''
          refine ⟨hk, List.mem_append_right _ (by simp), ?_⟩
          intro u hu hud
          rcases List.mem_append.mp hu with h2 | h2
          · exact pyStrLe_trans (hmax u h2 hud) (pyStrLe_of_pyStrLt hlt)
          · obtain rfl : t = u := (by simpa using h2 : u = t).symm
            exact pyStrLe_refl t
        · have hlt' : pyStrLt pr.2 t = false := by
            cases h3 : pyStrLt pr.2 t
            · rfl
            · exact absurd h3 hlt
          have hpr'' : pr' = pr := by rw [← hfpr]; simp [hk, hlt']
          subst hpr''
          refine ⟨hk0, List.mem_append_left _ hmem, ?_⟩
          intro u hu hud
          rcases List.mem_append.mp hu with h2 | h2
          · exact hmax u h2 hud
          · obtain rfl : t = u := (by simpa using h2 : u = t).symm
            exact pyStrLe_of_not_pyStrLt hlt'
      · have hpr'' : pr' = pr := by rw [← hfpr]; simp [hk]
        subst hpr''
        refine ⟨hk0, List.mem_append_left _ hmem, ?_⟩
        intro u hu hud
        rcases List.mem_append.mp hu with h2 | h2
        · exact hmax u h2 hud
        · obtain rfl : t = u := (by simpa using h2 : u = t).symm
          exact absurd hud.symm hk
    · intro u hu
      rcases List.mem_append.mp hu with h2 | h2
      · obtain ⟨pr, hpr, hk⟩ := hcov u h2
        exact ⟨_, List.mem_map_of_mem _ hpr, by rw [hmapkey pr]; exact hk⟩
      · obtain rfl : t = u := (by simpa using h2 : u = t).symm
        have hpr0m : pr0 ∈ m := List.mem_of_find?_eq_some hfind
        have hpr0k : pr0.1 = lrdate t := by
          have h3 := List.find?_some hfind
          simpa [beq_iff_eq] using h3
        exact ⟨_, List.mem_map_of_mem _ hpr0m, by rw [hmapkey pr0]; exact hpr0k⟩

theorem prune_inv_aux : ∀ (l processed : List String) (m : List (String × String)),
    PruneInv processed m → PruneInv (processed ++ l) (l.foldl pruneStep m)
  | [], processed, m, h => by simpa using h
  | t :: ts, processed, m, h => by
    have h2 := prune_inv_aux ts (processed ++ [t]) (pruneStep m t)
      (pruneStep_inv processed m t h)
    simpa using h2

theorem prune_inv (l : List String) : PruneInv l (prune l) := by
  have h := prune_inv_aux l [] [] ⟨by simp, by simp, by simp⟩
  simpa [prune] using h

/-- The values of the pruning dictionary are exactly the filtered names
that are lexicographically greatest for their `lrdate` key. -/
theorem prune_values_mem (l : List String) (v : String) :
    v ∈ (prune l).map Prod.snd ↔
      (v ∈ l ∧ ∀ u ∈ l, lrdate u = lrdate v → pyStrLe u v = true) := by
  obtain ⟨hpw, hent, hcov⟩ := prune_inv l
  constructor
  · intro hv
    obtain ⟨pr, hpr, hsnd⟩ := List.mem_map.mp hv
    obtain ⟨hk, hmem, hmax⟩ := hent pr hpr
    subst hsnd
    exact ⟨hmem, fun u hu hud => hmax u hu (by rw [hud, hk])⟩
  · rintro ⟨hv, hmax⟩
    obtain ⟨pr, hpr, hk⟩ := hcov v hv
    obtain ⟨hk0, hmem, hmax'⟩ := hent pr hpr
    have h1 : pyStrLe v pr.2 = true := hmax' v hv hk.symm
    have h2 : pyStrLe pr.2 v = true := hmax pr.2 hmem (by rw [← hk0, hk])
    exact List.mem_map.mpr ⟨pr, hpr, pyStrLe_antisymm h2 h1⟩

/-- No two values of the pruning dictionary share an `lrdate` key. -/
theorem prune_values_dates (l : List String) :
    ((prune l).map Prod.snd).Pairwise (fun a b => lrdate a ≠ lrdate b) := by
  obtain ⟨hpw, hent, _⟩ := prune_inv l
  have hpw2 : (prune l).Pairwise (fun a b => lrdate a.2 ≠ lrdate b.2) := by
    refine hpw.imp_of_mem ?_
    intro a b ha hb hab
    rw [← (hent a ha).1, ← (hent b hb).1]
    exact hab
  exact hpw2.map _ (fun a b hab => hab)

/-- A name is kept by the scanner iff it is a pattern match of the raw
listing and lexicographically greatest among the matches sharing its
`lrdate` key. -/
theorem getRecentLoadsPure_mem (rawlist : List String) (mtime : String → Int)
    (v : String) :
    v ∈ getRecentLoadsPure rawlist mtime ↔
      (v ∈ rawlist.filterMap lrdMatch ∧
        ∀ u ∈ rawlist.filterMap lrdMatch, lrdate u = lrdate v →
          pyStrLe u v = true) := by
  unfold getRecentLoadsPure
  rw [(List.mergeSort_perm _ _).mem_iff]
  exact prune_values_mem _ v

/-- C9: `getRecentLoadsPure` (i) orders its output by non-increasing
modification time, (ii) contains a name iff it matches the naming pattern
in the raw listing and is lexicographically greatest among the matches
sharing its embedded `lrdate` key, (iii) never keeps two names with the
same key, (iv) keeps a representative for the key of every matching
name, and (v) selects the same names however the raw listing is ordered.
Non-matching names are skipped by the `filterMap`. -/
theorem c9_scanner_properties (rawlist : List String) (mtime : String → Int) :
    (getRecentLoadsPure rawlist mtime).Pairwise (fun a b => mtime b ≤ mtime a) ∧
    (∀ v, v ∈ getRecentLoadsPure rawlist mtime ↔
      (v ∈ rawlist.filterMap lrdMatch ∧
        ∀ u ∈ rawlist.filterMap lrdMatch, lrdate u = lrdate v →
          pyStrLe u v = true)) ∧
    (getRecentLoadsPure rawlist mtime).Pairwise (fun a b => lrdate a ≠ lrdate b) ∧
    (∀ u ∈ rawlist.filterMap lrdMatch,
      ∃ v ∈ getRecentLoadsPure rawlist mtime, lrdate v = lrdate u) ∧
    (∀ (other : List String) (v : String), rawlist.Perm other →
      (v ∈ getRecentLoadsPure rawlist mtime ↔ v ∈ getRecentLoadsPure other mtime)) := by
  have hperm : (getRecentLoadsPure rawlist mtime).Perm
      ((prune (rawlist.filterMap lrdMatch)).map Prod.snd) :=
    List.mergeSort_perm _ _
  refine ⟨?_, ?_, ?_, ?_, ?_⟩
  · have hs := @List.sorted_mergeSort String
      (fun a b => decide (mtime b ≤ mtime a))
      (fun a b c hab hbc => by
        simp only [decide_eq_true_eq] at hab hbc ⊢
        omega)
      (fun a b => by
        rcases Int.le_total (mtime b) (mtime a) with h | h <;> simp [h])
      ((prune (rawlist.filterMap lrdMatch)).map Prod.snd)
    exact hs.imp (fun h => by simpa using h)
  · intro v
    rw [hperm.mem_iff]
    exact prune_values_mem _ v
  · exact (hperm.pairwise_iff (fun hab => fun h => hab h.symm)).mpr
      (prune_values_dates _)
  · intro u hu
    obtain ⟨pr, hpr, hk⟩ := (prune_inv (rawlist.filterMap lrdMatch)).2.2 u hu
    refine ⟨pr.2, hperm.mem_iff.mpr (List.mem_map_of_mem _ hpr), ?_⟩
    rw [← ((prune_inv (rawlist.filterMap lrdMatch)).2.1 pr hpr).1, hk]
  · intro other v hp
    have hm : ∀ u : String,
        u ∈ rawlist.filterMap lrdMatch ↔ u ∈ other.filterMap lrdMatch :=
      fun u => (hp.filterMap lrdMatch).mem_iff
    rw [getRecentLoadsPure_mem, getRecentLoadsPure_mem]
    constructor
    · rintro ⟨h1, h2⟩
      exact ⟨(hm v).mp h1, fun u hu hud => h2 u ((hm u).mpr hu) hud⟩
    · rintro ⟨h1, h2⟩
      exact ⟨(hm v).mpr h1, fun u hu hud => h2 u ((hm u).mp hu) hud⟩
